import Mathlib

/-!
Shallow embedding of the transaction pool of a UTXO ledger node
(source file `msg/node/transactionPool.go`), together with theorems that
check the specification's claims about admission, pool-local
verification (double-spend / duplicate-lock / issuance-cap), the
compensating rollback, block-commit cleanup, and the query surface.

Embedding conventions:
* Go maps become association lists with unique keys (`minsert` removes
  any previous binding before consing the new one); the unspecified Go
  map iteration order is fixed as list order.
* `common.Uint256` hashes and asset identifiers become `Nat`;
  `common.Fixed64` is Go `int64` and becomes `Int` (none of the studied
  claims reaches the 64-bit overflow boundary).
* `txn.GetReference()` can fail in Go, hence `Option (List UTXOTxInput)`;
  `GetMergedAssetIDValueFromOutputs` is a map asset → amount, embedded
  as an association list fixing one iteration order.
* Logging never alters control flow in the source and is dropped; the
  `txnCnt` field is written only by `init` and read nowhere, and is
  dropped.  External collaborators (`va.VerifyTransaction`,
  `va.VerifyTransactionWithLedger`, `transaction.TxStore`) are
  parameters of the operations that consult them.
-/

/-- Association-list lookup; the first binding of the key wins (Go map read). -/
def mlookup {α β : Type} [DecidableEq α] (k : α) : List (α × β) → Option β
  | [] => none
  | (k', v) :: rest => if k' = k then some v else mlookup k rest

/-- Remove every binding of key `k` (Go `delete`). -/
def mdelete {α β : Type} [DecidableEq α] (k : α) : List (α × β) → List (α × β)
  | [] => []
  | p :: rest => if p.1 = k then mdelete k rest else p :: mdelete k rest

/-- Insert or overwrite the binding of key `k` (Go map write). -/
def minsert {α β : Type} [DecidableEq α] (k : α) (v : β) (l : List (α × β)) : List (α × β) :=
  (k, v) :: mdelete k l

theorem mlookup_mdelete_self {α β : Type} [DecidableEq α] (k : α) (l : List (α × β)) :
    mlookup k (mdelete k l) = none := by
  induction l with
  | nil => rfl
  | cons p rest ih =>
    by_cases h : p.1 = k
    · simpa [mdelete, h] using ih
    · simpa [mdelete, mlookup, h] using ih

theorem mlookup_mdelete_ne {α β : Type} [DecidableEq α] {k k' : α} (h : k' ≠ k)
    (l : List (α × β)) : mlookup k' (mdelete k l) = mlookup k' l := by
  induction l with
  | nil => rfl
  | cons p rest ih =>
    by_cases hp : p.1 = k
    · simp [mdelete, hp, mlookup, Ne.symm h, ih]
    · by_cases hq : p.1 = k'
      · simp [mdelete, hp, mlookup, hq, h]
      · simp [mdelete, hp, mlookup, hq, ih]

theorem mdelete_of_mlookup_none {α β : Type} [DecidableEq α] {k : α} {l : List (α × β)}
    (h : mlookup k l = none) : mdelete k l = l := by
  induction l with
  | nil => rfl
  | cons p rest ih =>
    by_cases hp : p.1 = k
    · simp [mlookup, hp] at h
    · simp [mlookup, hp] at h
      simp [mdelete, hp, ih h]

theorem mlookup_minsert_self {α β : Type} [DecidableEq α] (k : α) (v : β) (l : List (α × β)) :
    mlookup k (minsert k v l) = some v := by
  simp [minsert, mlookup]

theorem mlookup_minsert_ne {α β : Type} [DecidableEq α] {k k' : α} (h : k' ≠ k) (v : β)
    (l : List (α × β)) : mlookup k' (minsert k v l) = mlookup k' l := by
  have hk : k ≠ k' := fun hc => h hc.symm
  simp [minsert, mlookup, hk, mlookup_mdelete_ne h]

/-- Transaction kinds (`transaction.TxType`); only the kinds the pool
inspects are distinguished, all other ordinary kinds are `TransferAsset`. -/
inductive TxType : Type
  | TransferAsset
  | IssueAsset
  | RegisterAsset
  | LockAsset
  | BookKeeping
deriving DecidableEq, Repr

/-- A reference to a previously produced output
(`transaction.UTXOTxInput`); its Go `ToString()` form, used as map key,
is injective in the (origin hash, output index) pair, so the pair itself
serves as the key here. -/
structure UTXOTxInput where
  referTxID : Nat
  referTxOutputIndex : Nat
deriving DecidableEq, Repr

/-- `transaction.Transaction`, restricted to the data the pool consults:
content hash, kind, the canonical string of a `LockAsset` payload, the
`Amount` field of a `RegisterAsset` payload, the derived reference set
(`GetReference`, fallible in Go), and the derived per-asset output
amounts (`GetMergedAssetIDValueFromOutputs`). -/
structure Transaction where
  hash : Nat
  txType : TxType
  lockPayloadToString : String
  registerAmount : Int
  getReference : Option (List UTXOTxInput)
  getMergedAssetIDValueFromOutputs : List (Nat × Int)
deriving DecidableEq, Repr

/-- Result codes (`IPT/common/errors`); `ErrOther` stands for the opaque
pass-through codes of the external validators. -/
inductive ErrCode : Type
  | ErrNoError
  | ErrDoubleSpend
  | ErrDuplicateLockAsset
  | ErrSummaryAsset
  | ErrOther : Nat → ErrCode
deriving DecidableEq, Repr

/-- The external ledger store (`transaction.TxStore`): registration
record lookup and confirmed issued quantity, both fallible. -/
structure TxStore where
  getTransaction : Nat → Option Transaction
  getQuantityIssued : Nat → Option Int

/-- The external stateless and ledger validators
(`va.VerifyTransaction`, `va.VerifyTransactionWithLedger`). -/
structure Externals where
  verifyTransaction : Transaction → ErrCode
  verifyTransactionWithLedger : Transaction → ErrCode

/-- The pool state (`TXNPool`): pending set, issuance summary,
claimed-input index and duplicate-lock guard. -/
structure TXNPool where
  txnList : List (Nat × Transaction)
  issueSummary : List (Nat × Int)
  inputUTXOList : List (UTXOTxInput × Transaction)
  lockAssetList : List (String × Unit)
deriving DecidableEq, Repr

def getInputUTXOList (pool : TXNPool) (input : UTXOTxInput) : Option Transaction :=
  mlookup input pool.inputUTXOList

def addInputUTXOList (pool : TXNPool) (tx : Transaction) (input : UTXOTxInput) :
    TXNPool × Bool :=
  match mlookup input pool.inputUTXOList with
  | some _ => (pool, false)
  | none => ({ pool with inputUTXOList := minsert input tx pool.inputUTXOList }, true)

def delInputUTXOList (pool : TXNPool) (input : UTXOTxInput) : TXNPool × Bool :=
  match mlookup input pool.inputUTXOList with
  | none => (pool, false)
  | some _ => ({ pool with inputUTXOList := mdelete input pool.inputUTXOList }, true)

def addtxnList (pool : TXNPool) (txn : Transaction) : TXNPool × Bool :=
  match mlookup txn.hash pool.txnList with
  | some _ => (pool, false)
  | none => ({ pool with txnList := minsert txn.hash txn pool.txnList }, true)

def deltxnList (pool : TXNPool) (tx : Transaction) : TXNPool × Bool :=
  match mlookup tx.hash pool.txnList with
  | none => (pool, false)
  | some _ => ({ pool with txnList := mdelete tx.hash pool.txnList }, true)

def getAssetIssueAmount (pool : TXNPool) (assetId : Nat) : Int :=
  (mlookup assetId pool.issueSummary).getD 0

def incrAssetIssueAmountSummary (pool : TXNPool) (assetId : Nat) (delta : Int) : TXNPool :=
  { pool with
    issueSummary :=
      minsert assetId ((mlookup assetId pool.issueSummary).getD 0 + delta) pool.issueSummary }

def decrAssetIssueAmountSummary (pool : TXNPool) (assetId : Nat) (delta : Int) : TXNPool :=
  match mlookup assetId pool.issueSummary with
  | none => pool
  | some amount =>
      { pool with
        issueSummary :=
          minsert assetId (if amount - delta < 0 then 0 else amount - delta) pool.issueSummary }

/-- The second loop of `apendToUTXOPool`: record the transaction as the
claimant of each collected input. -/
def addUTXOs (pool : TXNPool) (txn : Transaction) (inputs : List UTXOTxInput) : TXNPool :=
  inputs.foldl (fun p v => (addInputUTXOList p txn v).1) pool

/-- The removal loop over a transaction's references (`delInputUTXOList`
applied to each). -/
def delUTXOs (pool : TXNPool) (inputs : List UTXOTxInput) : TXNPool :=
  inputs.foldl (fun p v => (delInputUTXOList p v).1) pool

/-- The decrement loop over a transaction's merged per-asset amounts. -/
def decrSummaryAll (pool : TXNPool) (merged : List (Nat × Int)) : TXNPool :=
  merged.foldl (fun p kd => decrAssetIssueAmountSummary p kd.1 kd.2) pool

/-- `apendToUTXOPool`: fail (and leave the pool untouched) when
`GetReference` fails or some referenced output is already claimed;
otherwise record the transaction as the claimant of every reference. -/
def apendToUTXOPool (pool : TXNPool) (txn : Transaction) : Option TXNPool :=
  match txn.getReference with
  | none => none
  | some reference =>
      if reference.any (fun k => (getInputUTXOList pool k).isSome) then none
      else some (addUTXOs pool txn reference)

/-- `checkDuplicateLockAsset`: only for `LockAsset` transactions —
fail when the guard already holds the payload's canonical string,
otherwise insert it. -/
def checkDuplicateLockAsset (pool : TXNPool) (txn : Transaction) : Option TXNPool :=
  if txn.txType = TxType.LockAsset then
    if (mlookup txn.lockPayloadToString pool.lockAssetList).isSome then none
    else some { pool with lockAssetList := minsert txn.lockPayloadToString () pool.lockAssetList }
  else some pool

/-- The per-asset loop of `summaryAssetIssueAmount`: increment the
summary, fetch the registration record and the confirmed issued
quantity, skip the cap check when the registered amount is negative
(unbounded marker), otherwise compare cap minus issued against the
pending summary. -/
def summaryAssetIssueAmountLoop (store : TxStore) (pool : TXNPool) :
    List (Nat × Int) → TXNPool × Bool
  | [] => (pool, true)
  | (k, delta) :: rest =>
      let pool1 := incrAssetIssueAmountSummary pool k delta
      match store.getTransaction k with
      | none => (pool1, false)
      | some regTxn =>
          if regTxn.txType ≠ TxType.RegisterAsset then (pool1, false)
          else if regTxn.registerAmount < 0 then summaryAssetIssueAmountLoop store pool1 rest
          else
            match store.getQuantityIssued k with
            | none => (pool1, false)
            | some quantityIssued =>
                if regTxn.registerAmount - quantityIssued < getAssetIssueAmount pool1 k then
                  (pool1, false)
                else summaryAssetIssueAmountLoop store pool1 rest

/-- `summaryAssetIssueAmount`: trivially true for non-`IssueAsset`
transactions, otherwise the per-asset loop above. -/
def summaryAssetIssueAmount (store : TxStore) (pool : TXNPool) (txn : Transaction) :
    TXNPool × Bool :=
  if txn.txType ≠ TxType.IssueAsset then (pool, true)
  else summaryAssetIssueAmountLoop store pool txn.getMergedAssetIDValueFromOutputs

/-- `removeTransaction`: drop the pending-set entry; when `GetReference`
fails, stop there (the source logs and returns); otherwise release each
reference and, for `IssueAsset`, decrement the per-asset summary. -/
def removeTransaction (pool : TXNPool) (txn : Transaction) : TXNPool :=
  let pool1 := (deltxnList pool txn).1
  match txn.getReference with
  | none => pool1
  | some reference =>
      let pool2 := delUTXOs pool1 reference
      if txn.txType ≠ TxType.IssueAsset then pool2
      else decrSummaryAll pool2 txn.getMergedAssetIDValueFromOutputs

/-- `verifyTransactionWithTxnPool`: the three ordered pool-local checks;
an issuance-cap failure triggers `removeTransaction` on the partially
updated pool before returning. -/
def verifyTransactionWithTxnPool (store : TxStore) (pool : TXNPool) (txn : Transaction) :
    TXNPool × ErrCode :=
  match apendToUTXOPool pool txn with
  | none => (pool, ErrCode.ErrDoubleSpend)
  | some pool1 =>
      match checkDuplicateLockAsset pool1 txn with
      | none => (pool1, ErrCode.ErrDuplicateLockAsset)
      | some pool2 =>
          match summaryAssetIssueAmount store pool2 txn with
          | (pool3, true) => (pool3, ErrCode.ErrNoError)
          | (pool3, false) => (removeTransaction pool3 txn, ErrCode.ErrSummaryAsset)

/-- `AppendTxnPool`: external stateless verification, external ledger
verification, optional pool-local verification, then idempotent
insertion into the pending set. -/
def AppendTxnPool (ext : Externals) (store : TxStore) (pool : TXNPool)
    (txn : Transaction) (poolVerify : Bool) : TXNPool × ErrCode :=
  if ext.verifyTransaction txn ≠ ErrCode.ErrNoError then
    (pool, ext.verifyTransaction txn)
  else if ext.verifyTransactionWithLedger txn ≠ ErrCode.ErrNoError then
    (pool, ext.verifyTransactionWithLedger txn)
  else if poolVerify then
    match verifyTransactionWithTxnPool store pool txn with
    | (pool1, e) =>
        if e ≠ ErrCode.ErrNoError then (pool1, e)
        else ((addtxnList pool1 txn).1, ErrCode.ErrNoError)
  else ((addtxnList pool txn).1, ErrCode.ErrNoError)

/-- The copy loop of `GetTxnPool`: copy entries, breaking once the
number copied reaches `count` (the break is tested after each copy). -/
def txnCopyLoop (count : Int) : List (Nat × Transaction) → Int → List (Nat × Transaction)
  | [], _ => []
  | p :: rest, num =>
      if num + 1 ≥ count then [p] else p :: txnCopyLoop count rest (num + 1)

/-- `GetTxnPool`: with `maxTxInBlock` standing for
`config.Parameters.MaxTxInBlock`. -/
def GetTxnPool (maxTxInBlock : Int) (pool : TXNPool) (byCount : Bool) :
    List (Nat × Transaction) :=
  let count := maxTxInBlock
  let byCount1 := if count ≤ 0 then false else byCount
  let count1 :=
    if ((pool.txnList.length : Int) < count ∨ byCount1 = false) then
      (pool.txnList.length : Int)
    else count
  txnCopyLoop count1 pool.txnList 0

def GetTransaction (pool : TXNPool) (hash : Nat) : Option Transaction :=
  mlookup hash pool.txnList

def GetTransactionCount (pool : TXNPool) : Nat :=
  pool.txnList.length

/-- `cleanTransactionList`: delete every non-bookkeeping block
transaction from the pending set (the mismatch counters only feed a log
line and are dropped). -/
def cleanTransactionList (pool : TXNPool) (txns : List Transaction) : TXNPool :=
  txns.foldl
    (fun p txn => if txn.txType = TxType.BookKeeping then p else (deltxnList p txn).1) pool

/-- `cleanUTXOList`: release the references of every block transaction
(a failing `GetReference` yields no inputs and is skipped). -/
def cleanUTXOList (pool : TXNPool) (txs : List Transaction) : TXNPool :=
  txs.foldl
    (fun p txn =>
      match txn.getReference with
      | none => p
      | some reference => delUTXOs p reference) pool

def cleanLockedAssetList (pool : TXNPool) (txs : List Transaction) : TXNPool :=
  txs.foldl
    (fun p txn =>
      if txn.txType = TxType.LockAsset then
        { p with lockAssetList := mdelete txn.lockPayloadToString p.lockAssetList }
      else p) pool

def cleanIssueSummary (pool : TXNPool) (txs : List Transaction) : TXNPool :=
  txs.foldl
    (fun p v =>
      if v.txType = TxType.IssueAsset then
        decrSummaryAll p v.getMergedAssetIDValueFromOutputs
      else p) pool

/-- `CleanSubmittedTransactions` (`OnBlockCommitted`): the four cleanup
passes over the committed block's transactions. -/
def CleanSubmittedTransactions (pool : TXNPool) (blockTransactions : List Transaction) :
    TXNPool :=
  cleanIssueSummary
    (cleanLockedAssetList
      (cleanUTXOList (cleanTransactionList pool blockTransactions) blockTransactions)
      blockTransactions)
    blockTransactions

/-! ### Basic lemmas about the container operations -/

theorem mlookup_mdelete_none {α β : Type} [DecidableEq α] {k k2 : α} {l : List (α × β)}
    (h : mlookup k l = none) : mlookup k (mdelete k2 l) = none := by
  by_cases hk : k = k2
  · subst hk
    exact mlookup_mdelete_self k l
  · rw [mlookup_mdelete_ne hk]
    exact h

theorem mlookup_some_mem {α β : Type} [DecidableEq α] {k : α} {v : β} :
    ∀ {l : List (α × β)}, mlookup k l = some v → (k, v) ∈ l := by
  intro l
  induction l with
  | nil => intro h; cases h
  | cons p rest ih =>
    intro h
    by_cases hp : p.1 = k
    · simp [mlookup, hp] at h
      subst hp
      rw [← h]
      exact List.mem_cons_self _ _
    · simp [mlookup, hp] at h
      exact List.mem_cons_of_mem p (ih h)

theorem addInputUTXOList_fst (pool : TXNPool) (tx : Transaction) (input : UTXOTxInput) :
    (addInputUTXOList pool tx input).1 =
      if mlookup input pool.inputUTXOList = none then
        { pool with inputUTXOList := minsert input tx pool.inputUTXOList }
      else pool := by
  unfold addInputUTXOList
  cases h : mlookup input pool.inputUTXOList with
  | none => simp
  | some t => simp

theorem addInputUTXOList_frame (pool : TXNPool) (tx : Transaction) (input : UTXOTxInput) :
    ((addInputUTXOList pool tx input).1.txnList = pool.txnList) ∧
    ((addInputUTXOList pool tx input).1.issueSummary = pool.issueSummary) ∧
    ((addInputUTXOList pool tx input).1.lockAssetList = pool.lockAssetList) := by
  rw [addInputUTXOList_fst]
  by_cases h : mlookup input pool.inputUTXOList = none <;> simp [h]

theorem delInputUTXOList_inputUTXOList (pool : TXNPool) (input : UTXOTxInput) :
    ((delInputUTXOList pool input).1).inputUTXOList = mdelete input pool.inputUTXOList := by
  unfold delInputUTXOList
  cases h : mlookup input pool.inputUTXOList with
  | none => exact (mdelete_of_mlookup_none h).symm
  | some t => simp

theorem delInputUTXOList_frame (pool : TXNPool) (input : UTXOTxInput) :
    ((delInputUTXOList pool input).1.txnList = pool.txnList) ∧
    ((delInputUTXOList pool input).1.issueSummary = pool.issueSummary) ∧
    ((delInputUTXOList pool input).1.lockAssetList = pool.lockAssetList) := by
  unfold delInputUTXOList
  cases h : mlookup input pool.inputUTXOList with
  | none => exact ⟨rfl, rfl, rfl⟩
  | some t => exact ⟨rfl, rfl, rfl⟩

theorem delUTXOs_mlookup_eq (inputs : List UTXOTxInput) :
    ∀ (pool : TXNPool) (r : UTXOTxInput),
      mlookup r (delUTXOs pool inputs).inputUTXOList =
        if r ∈ inputs then none else mlookup r pool.inputUTXOList := by
  induction inputs with
  | nil =>
    intro pool r
    simp [delUTXOs]
  | cons i rest ih =>
    intro pool r
    have hstep : delUTXOs pool (i :: rest) = delUTXOs (delInputUTXOList pool i).1 rest := rfl
    rw [hstep, ih]
    by_cases hr : r ∈ rest
    · simp [hr]
    · by_cases hri : r = i
      · subst hri
        simp [hr, delInputUTXOList_inputUTXOList, mlookup_mdelete_self]
      · simp [hr, hri, delInputUTXOList_inputUTXOList, mlookup_mdelete_ne hri]

theorem delUTXOs_frame (inputs : List UTXOTxInput) :
    ∀ (pool : TXNPool),
      ((delUTXOs pool inputs).txnList = pool.txnList) ∧
      ((delUTXOs pool inputs).issueSummary = pool.issueSummary) ∧
      ((delUTXOs pool inputs).lockAssetList = pool.lockAssetList) := by
  induction inputs with
  | nil => intro pool; exact ⟨rfl, rfl, rfl⟩
  | cons i rest ih =>
    intro pool
    have hstep : delUTXOs pool (i :: rest) = delUTXOs (delInputUTXOList pool i).1 rest := rfl
    rw [hstep]
    obtain ⟨h1, h2, h3⟩ := ih (delInputUTXOList pool i).1
    obtain ⟨g1, g2, g3⟩ := delInputUTXOList_frame pool i
    exact ⟨h1.trans g1, h2.trans g2, h3.trans g3⟩

theorem addUTXOs_frame (inputs : List UTXOTxInput) :
    ∀ (pool : TXNPool) (txn : Transaction),
      ((addUTXOs pool txn inputs).txnList = pool.txnList) ∧
      ((addUTXOs pool txn inputs).issueSummary = pool.issueSummary) ∧
      ((addUTXOs pool txn inputs).lockAssetList = pool.lockAssetList) := by
  induction inputs with
  | nil => intro pool txn; exact ⟨rfl, rfl, rfl⟩
  | cons i rest ih =>
    intro pool txn
    have hstep : addUTXOs pool txn (i :: rest) = addUTXOs (addInputUTXOList pool txn i).1 txn rest := rfl
    rw [hstep]
    obtain ⟨h1, h2, h3⟩ := ih (addInputUTXOList pool txn i).1 txn
    obtain ⟨g1, g2, g3⟩ := addInputUTXOList_frame pool txn i
    exact ⟨h1.trans g1, h2.trans g2, h3.trans g3⟩

theorem addUTXOs_mlookup_preserve (inputs : List UTXOTxInput) :
    ∀ (pool : TXNPool) (txn : Transaction) (r : UTXOTxInput),
      mlookup r pool.inputUTXOList = some txn →
      mlookup r (addUTXOs pool txn inputs).inputUTXOList = some txn := by
  induction inputs with
  | nil => intro pool txn r h; exact h
  | cons i rest ih =>
    intro pool txn r h
    have hstep : addUTXOs pool txn (i :: rest) = addUTXOs (addInputUTXOList pool txn i).1 txn rest := rfl
    rw [hstep]
    apply ih
    rw [addInputUTXOList_fst]
    by_cases hn : mlookup i pool.inputUTXOList = none
    · simp only [hn, if_pos]
      by_cases hri : r = i
      · subst hri
        rw [h] at hn
        cases hn
      · show mlookup r (minsert i txn pool.inputUTXOList) = some txn
        rw [mlookup_minsert_ne hri]
        exact h
    · simp only [hn, if_neg, not_false_iff]
      exact h

theorem addUTXOs_mlookup_mem (inputs : List UTXOTxInput) :
    ∀ (pool : TXNPool) (txn : Transaction),
      (∀ r ∈ inputs, mlookup r pool.inputUTXOList = none ∨
        mlookup r pool.inputUTXOList = some txn) →
      ∀ r ∈ inputs, mlookup r (addUTXOs pool txn inputs).inputUTXOList = some txn := by
  induction inputs with
  | nil =>
    intro pool txn _ r hr
    exact absurd hr (List.not_mem_nil r)
  | cons i rest ih =>
    intro pool txn hinv r hr
    have hstep : addUTXOs pool txn (i :: rest) = addUTXOs (addInputUTXOList pool txn i).1 txn rest := rfl
    have hstep1 : mlookup i ((addInputUTXOList pool txn i).1).inputUTXOList = some txn := by
      rw [addInputUTXOList_fst]
      rcases hinv i (List.mem_cons_self i rest) with hni | hsi
      · simp only [hni, if_pos]
        exact mlookup_minsert_self i txn pool.inputUTXOList
      · have hne : ¬ mlookup i pool.inputUTXOList = none := by
          rw [hsi]
          simp
        simp only [hne, if_neg, not_false_iff]
        exact hsi
    have hinv1 : ∀ s ∈ rest, mlookup s ((addInputUTXOList pool txn i).1).inputUTXOList = none ∨
        mlookup s ((addInputUTXOList pool txn i).1).inputUTXOList = some txn := by
      intro s hs
      rw [addInputUTXOList_fst]
      by_cases hn : mlookup i pool.inputUTXOList = none
      · simp only [hn, if_pos]
        by_cases hsi : s = i
        · subst hsi
          right
          exact mlookup_minsert_self s txn pool.inputUTXOList
        · show mlookup s (minsert i txn pool.inputUTXOList) = none ∨
            mlookup s (minsert i txn pool.inputUTXOList) = some txn
          rw [mlookup_minsert_ne hsi]
          exact hinv s (List.mem_cons_of_mem i hs)
      · simp only [hn, if_neg, not_false_iff]
        exact hinv s (List.mem_cons_of_mem i hs)
    rw [hstep]
    rcases List.mem_cons.1 hr with hri | hrr
    · subst hri
      exact addUTXOs_mlookup_preserve rest _ txn r hstep1
    · exact ih (addInputUTXOList pool txn i).1 txn hinv1 r hrr

theorem addUTXOs_mlookup_notmem (inputs : List UTXOTxInput) :
    ∀ (pool : TXNPool) (txn : Transaction) (r : UTXOTxInput), r ∉ inputs →
      mlookup r (addUTXOs pool txn inputs).inputUTXOList = mlookup r pool.inputUTXOList := by
  induction inputs with
  | nil => intro pool txn r _; rfl
  | cons i rest ih =>
    intro pool txn r hr
    have hri : r ≠ i := fun hc => hr (hc ▸ List.mem_cons_self i rest)
    have hrr : r ∉ rest := fun hc => hr (List.mem_cons_of_mem i hc)
    have hstep : addUTXOs pool txn (i :: rest) = addUTXOs (addInputUTXOList pool txn i).1 txn rest := rfl
    rw [hstep, ih _ txn r hrr, addInputUTXOList_fst]
    by_cases hn : mlookup i pool.inputUTXOList = none
    · simp only [hn, if_pos]
      exact mlookup_minsert_ne hri txn pool.inputUTXOList
    · simp only [hn, if_neg, not_false_iff]

theorem deltxnList_txnList (pool : TXNPool) (tx : Transaction) :
    ((deltxnList pool tx).1).txnList = mdelete tx.hash pool.txnList := by
  unfold deltxnList
  cases h : mlookup tx.hash pool.txnList with
  | none => exact (mdelete_of_mlookup_none h).symm
  | some t => simp

theorem deltxnList_frame (pool : TXNPool) (tx : Transaction) :
    ((deltxnList pool tx).1.issueSummary = pool.issueSummary) ∧
    ((deltxnList pool tx).1.inputUTXOList = pool.inputUTXOList) ∧
    ((deltxnList pool tx).1.lockAssetList = pool.lockAssetList) := by
  unfold deltxnList
  cases h : mlookup tx.hash pool.txnList with
  | none => exact ⟨rfl, rfl, rfl⟩
  | some t => exact ⟨rfl, rfl, rfl⟩

theorem deltxnList_of_none {pool : TXNPool} {tx : Transaction}
    (h : mlookup tx.hash pool.txnList = none) : (deltxnList pool tx).1 = pool := by
  unfold deltxnList
  rw [h]

theorem addtxnList_of_some {pool : TXNPool} {txn : Transaction} {t0 : Transaction}
    (h : mlookup txn.hash pool.txnList = some t0) : (addtxnList pool txn).1 = pool := by
  unfold addtxnList
  rw [h]

theorem incrAssetIssueAmountSummary_frame (pool : TXNPool) (k : Nat) (d : Int) :
    ((incrAssetIssueAmountSummary pool k d).txnList = pool.txnList) ∧
    ((incrAssetIssueAmountSummary pool k d).inputUTXOList = pool.inputUTXOList) ∧
    ((incrAssetIssueAmountSummary pool k d).lockAssetList = pool.lockAssetList) :=
  ⟨rfl, rfl, rfl⟩

theorem mlookup_incr_self (pool : TXNPool) (k : Nat) (d : Int) :
    mlookup k (incrAssetIssueAmountSummary pool k d).issueSummary =
      some (getAssetIssueAmount pool k + d) := by
  unfold incrAssetIssueAmountSummary getAssetIssueAmount
  exact mlookup_minsert_self k _ pool.issueSummary

theorem getAssetIssueAmount_incr_self (pool : TXNPool) (k : Nat) (d : Int) :
    getAssetIssueAmount (incrAssetIssueAmountSummary pool k d) k =
      getAssetIssueAmount pool k + d := by
  show (mlookup k (incrAssetIssueAmountSummary pool k d).issueSummary).getD 0 = _
  rw [mlookup_incr_self]
  rfl

theorem getAssetIssueAmount_incr_ne (pool : TXNPool) {k a : Nat} (d : Int) (h : a ≠ k) :
    getAssetIssueAmount (incrAssetIssueAmountSummary pool k d) a =
      getAssetIssueAmount pool a := by
  unfold getAssetIssueAmount incrAssetIssueAmountSummary
  rw [mlookup_minsert_ne h]

theorem decrAssetIssueAmountSummary_frame (pool : TXNPool) (k : Nat) (d : Int) :
    ((decrAssetIssueAmountSummary pool k d).txnList = pool.txnList) ∧
    ((decrAssetIssueAmountSummary pool k d).inputUTXOList = pool.inputUTXOList) ∧
    ((decrAssetIssueAmountSummary pool k d).lockAssetList = pool.lockAssetList) := by
  unfold decrAssetIssueAmountSummary
  cases h : mlookup k pool.issueSummary with
  | none => exact ⟨rfl, rfl, rfl⟩
  | some v => exact ⟨rfl, rfl, rfl⟩

theorem getAssetIssueAmount_decr (pool : TXNPool) (k : Nat) (d : Int) (a : Nat)
    (hd : 0 ≤ d) :
    getAssetIssueAmount (decrAssetIssueAmountSummary pool k d) a =
      if k = a then max (getAssetIssueAmount pool a - d) 0
      else getAssetIssueAmount pool a := by
  by_cases hka : k = a
  · subst hka
    cases h : mlookup k pool.issueSummary with
    | none =>
      unfold decrAssetIssueAmountSummary
      rw [h]
      unfold getAssetIssueAmount
      rw [h]
      simp only [Option.getD_none, if_pos rfl]
      rw [max_def]
      split_ifs <;> omega
    | some v =>
      unfold decrAssetIssueAmountSummary
      rw [h]
      unfold getAssetIssueAmount
      simp only [mlookup_minsert_self, Option.getD_some, h, if_pos rfl]
      rw [max_def]
      split_ifs <;> omega
  · cases h : mlookup k pool.issueSummary with
    | none =>
      unfold decrAssetIssueAmountSummary
      rw [h]
      simp [hka]
    | some v =>
      unfold decrAssetIssueAmountSummary
      rw [h]
      unfold getAssetIssueAmount
      simp only [if_neg hka]
      rw [mlookup_minsert_ne (Ne.symm hka)]

theorem getAssetIssueAmount_decr_nonneg (pool : TXNPool) (k : Nat) (d : Int) (a : Nat)
    (hd : 0 ≤ d) (h0 : 0 ≤ getAssetIssueAmount pool a) :
    0 ≤ getAssetIssueAmount (decrAssetIssueAmountSummary pool k d) a := by
  rw [getAssetIssueAmount_decr pool k d a hd]
  split
  · exact le_max_right _ _
  · exact h0

theorem getAssetIssueAmount_nonneg {pool : TXNPool}
    (h : ∀ q ∈ pool.issueSummary, 0 ≤ q.2) (a : Nat) :
    0 ≤ getAssetIssueAmount pool a := by
  unfold getAssetIssueAmount
  cases hm : mlookup a pool.issueSummary with
  | none => exact le_refl 0
  | some v => exact h (a, v) (mlookup_some_mem hm)

/-- The total amount the list of merged outputs issues for asset `a`. -/
def assetAmountIn : List (Nat × Int) → Nat → Int
  | [], _ => 0
  | q :: rest, a => (if q.1 = a then q.2 else 0) + assetAmountIn rest a

theorem assetAmountIn_nil (a : Nat) : assetAmountIn [] a = 0 := rfl

theorem assetAmountIn_cons (q : Nat × Int) (rest : List (Nat × Int)) (a : Nat) :
    assetAmountIn (q :: rest) a = (if q.1 = a then q.2 else 0) + assetAmountIn rest a := rfl

theorem assetAmountIn_nonneg :
    ∀ (merged : List (Nat × Int)) (a : Nat), (∀ q ∈ merged, 0 ≤ q.2) →
      0 ≤ assetAmountIn merged a
  | [], _, _ => le_refl 0
  | q :: rest, a, hd => by
    have h1 := hd q (List.mem_cons_self q rest)
    have h2 := assetAmountIn_nonneg rest a (fun p hp => hd p (List.mem_cons_of_mem q hp))
    unfold assetAmountIn
    split <;> omega

theorem max_sub_right (x s : Int) (hs : 0 ≤ s) : max (max x 0 - s) 0 = max (x - s) 0 := by
  simp only [max_def]
  split_ifs <;> omega

theorem decrSummaryAll_frame (merged : List (Nat × Int)) :
    ∀ (pool : TXNPool),
      ((decrSummaryAll pool merged).txnList = pool.txnList) ∧
      ((decrSummaryAll pool merged).inputUTXOList = pool.inputUTXOList) ∧
      ((decrSummaryAll pool merged).lockAssetList = pool.lockAssetList) := by
  induction merged with
  | nil => intro pool; exact ⟨rfl, rfl, rfl⟩
  | cons q rest ih =>
    intro pool
    have hstep : decrSummaryAll pool (q :: rest) =
        decrSummaryAll (decrAssetIssueAmountSummary pool q.1 q.2) rest := rfl
    rw [hstep]
    obtain ⟨h1, h2, h3⟩ := ih (decrAssetIssueAmountSummary pool q.1 q.2)
    obtain ⟨g1, g2, g3⟩ := decrAssetIssueAmountSummary_frame pool q.1 q.2
    exact ⟨h1.trans g1, h2.trans g2, h3.trans g3⟩

theorem decrSummaryAll_getAsset :
    ∀ (merged : List (Nat × Int)) (pool : TXNPool) (a : Nat),
      (∀ q ∈ merged, 0 ≤ q.2) → 0 ≤ getAssetIssueAmount pool a →
      getAssetIssueAmount (decrSummaryAll pool merged) a =
        max (getAssetIssueAmount pool a - assetAmountIn merged a) 0
  | [], pool, a, _, h0 => by
    show getAssetIssueAmount pool a = max (getAssetIssueAmount pool a - assetAmountIn [] a) 0
    unfold assetAmountIn
    rw [sub_zero]
    exact (max_eq_left h0).symm
  | q :: rest, pool, a, hd, h0 => by
    have hq := hd q (List.mem_cons_self q rest)
    have hrest : ∀ p ∈ rest, 0 ≤ p.2 := fun p hp => hd p (List.mem_cons_of_mem q hp)
    have hstep : decrSummaryAll pool (q :: rest) =
        decrSummaryAll (decrAssetIssueAmountSummary pool q.1 q.2) rest := rfl
    rw [hstep,
      decrSummaryAll_getAsset rest _ a hrest
        (getAssetIssueAmount_decr_nonneg pool q.1 q.2 a hq h0),
      getAssetIssueAmount_decr pool q.1 q.2 a hq]
    rw [assetAmountIn_cons]
    by_cases hqa : q.1 = a
    · rw [if_pos hqa, if_pos hqa,
        max_sub_right _ _ (assetAmountIn_nonneg rest a hrest), sub_sub]
    · rw [if_neg hqa, if_neg hqa, zero_add]

/-- Amount that the `IssueAsset` transactions of a list issue in total
for asset `a`; the aggregate by which block-commit cleanup decrements
the pending issuance summary. -/
def specIssuedTotal : List Transaction → Nat → Int
  | [], _ => 0
  | t :: rest, a =>
      (if t.txType = TxType.IssueAsset then
        assetAmountIn t.getMergedAssetIDValueFromOutputs a
      else 0) + specIssuedTotal rest a

theorem cleanTransactionList_frame :
    ∀ (txs : List Transaction) (pool : TXNPool),
      ((cleanTransactionList pool txs).issueSummary = pool.issueSummary) ∧
      ((cleanTransactionList pool txs).inputUTXOList = pool.inputUTXOList) ∧
      ((cleanTransactionList pool txs).lockAssetList = pool.lockAssetList)
  | [], pool => ⟨rfl, rfl, rfl⟩
  | t :: rest, pool => by
    have hstep : cleanTransactionList pool (t :: rest) =
        cleanTransactionList
          (if t.txType = TxType.BookKeeping then pool else (deltxnList pool t).1) rest := rfl
    rw [hstep]
    by_cases hb : t.txType = TxType.BookKeeping
    · rw [if_pos hb]
      exact cleanTransactionList_frame rest pool
    · rw [if_neg hb]
      obtain ⟨h1, h2, h3⟩ := cleanTransactionList_frame rest (deltxnList pool t).1
      obtain ⟨g1, g2, g3⟩ := deltxnList_frame pool t
      exact ⟨h1.trans g1, h2.trans g2, h3.trans g3⟩

theorem cleanTransactionList_preserve_none :
    ∀ (txs : List Transaction) (pool : TXNPool) (h : Nat),
      mlookup h pool.txnList = none →
      mlookup h (cleanTransactionList pool txs).txnList = none
  | [], _, _, hn => hn
  | t :: rest, pool, h, hn => by
    have hstep : cleanTransactionList pool (t :: rest) =
        cleanTransactionList
          (if t.txType = TxType.BookKeeping then pool else (deltxnList pool t).1) rest := rfl
    rw [hstep]
    apply cleanTransactionList_preserve_none rest
    by_cases hb : t.txType = TxType.BookKeeping
    · rw [if_pos hb]
      exact hn
    · rw [if_neg hb, deltxnList_txnList]
      exact mlookup_mdelete_none hn

theorem cleanTransactionList_mem :
    ∀ (txs : List Transaction) (pool : TXNPool) (txn : Transaction),
      txn ∈ txs → txn.txType ≠ TxType.BookKeeping →
      mlookup txn.hash (cleanTransactionList pool txs).txnList = none
  | [], _, _, hmem, _ => absurd hmem (List.not_mem_nil _)
  | t :: rest, pool, txn, hmem, hbk => by
    have hstep : cleanTransactionList pool (t :: rest) =
        cleanTransactionList
          (if t.txType = TxType.BookKeeping then pool else (deltxnList pool t).1) rest := rfl
    rw [hstep]
    rcases List.mem_cons.1 hmem with heq | hrest
    · subst heq
      apply cleanTransactionList_preserve_none rest
      rw [if_neg hbk, deltxnList_txnList]
      exact mlookup_mdelete_self _ _
    · exact cleanTransactionList_mem rest _ txn hrest hbk

theorem cleanUTXOList_frame :
    ∀ (txs : List Transaction) (pool : TXNPool),
      ((cleanUTXOList pool txs).txnList = pool.txnList) ∧
      ((cleanUTXOList pool txs).issueSummary = pool.issueSummary) ∧
      ((cleanUTXOList pool txs).lockAssetList = pool.lockAssetList)
  | [], pool => ⟨rfl, rfl, rfl⟩
  | t :: rest, pool => by
    have hstep : cleanUTXOList pool (t :: rest) =
        cleanUTXOList
          (match t.getReference with
           | none => pool
           | some reference => delUTXOs pool reference) rest := rfl
    rw [hstep]
    cases href : t.getReference with
    | none =>
      exact cleanUTXOList_frame rest pool
    | some reference =>
      obtain ⟨h1, h2, h3⟩ := cleanUTXOList_frame rest (delUTXOs pool reference)
      obtain ⟨g1, g2, g3⟩ := delUTXOs_frame reference pool
      exact ⟨h1.trans g1, h2.trans g2, h3.trans g3⟩

theorem cleanUTXOList_preserve_none :
    ∀ (txs : List Transaction) (pool : TXNPool) (r : UTXOTxInput),
      mlookup r pool.inputUTXOList = none →
      mlookup r (cleanUTXOList pool txs).inputUTXOList = none
  | [], _, _, hn => hn
  | t :: rest, pool, r, hn => by
    have hstep : cleanUTXOList pool (t :: rest) =
        cleanUTXOList
          (match t.getReference with
           | none => pool
           | some reference => delUTXOs pool reference) rest := rfl
    rw [hstep]
    apply cleanUTXOList_preserve_none rest
    cases href : t.getReference with
    | none =>
      exact hn
    | some reference =>
      show mlookup r (delUTXOs pool reference).inputUTXOList = none
      rw [delUTXOs_mlookup_eq]
      by_cases hr : r ∈ reference
      · rw [if_pos hr]
      · rw [if_neg hr]
        exact hn

theorem cleanUTXOList_mem :
    ∀ (txs : List Transaction) (pool : TXNPool) (txn : Transaction)
      (reference : List UTXOTxInput),
      txn ∈ txs → txn.getReference = some reference →
      ∀ r ∈ reference, mlookup r (cleanUTXOList pool txs).inputUTXOList = none
  | [], _, _, _, hmem, _, _, _ => absurd hmem (List.not_mem_nil _)
  | t :: rest, pool, txn, reference, hmem, href, r, hr => by
    have hstep : cleanUTXOList pool (t :: rest) =
        cleanUTXOList
          (match t.getReference with
           | none => pool
           | some reference => delUTXOs pool reference) rest := rfl
    rw [hstep]
    rcases List.mem_cons.1 hmem with heq | hrest
    · subst heq
      apply cleanUTXOList_preserve_none rest
      rw [href]
      show mlookup r (delUTXOs pool reference).inputUTXOList = none
      rw [delUTXOs_mlookup_eq, if_pos hr]
    · exact cleanUTXOList_mem rest _ txn reference hrest href r hr

theorem cleanLockedAssetList_frame :
    ∀ (txs : List Transaction) (pool : TXNPool),
      ((cleanLockedAssetList pool txs).txnList = pool.txnList) ∧
      ((cleanLockedAssetList pool txs).issueSummary = pool.issueSummary) ∧
      ((cleanLockedAssetList pool txs).inputUTXOList = pool.inputUTXOList)
  | [], pool => ⟨rfl, rfl, rfl⟩
  | t :: rest, pool => by
    have hstep : cleanLockedAssetList pool (t :: rest) =
        cleanLockedAssetList
          (if t.txType = TxType.LockAsset then
            { pool with lockAssetList := mdelete t.lockPayloadToString pool.lockAssetList }
          else pool) rest := rfl
    rw [hstep]
    by_cases hb : t.txType = TxType.LockAsset
    · rw [if_pos hb]
      exact cleanLockedAssetList_frame rest _
    · rw [if_neg hb]
      exact cleanLockedAssetList_frame rest pool

theorem cleanLockedAssetList_preserve_none :
    ∀ (txs : List Transaction) (pool : TXNPool) (s : String),
      mlookup s pool.lockAssetList = none →
      mlookup s (cleanLockedAssetList pool txs).lockAssetList = none
  | [], _, _, hn => hn
  | t :: rest, pool, s, hn => by
    have hstep : cleanLockedAssetList pool (t :: rest) =
        cleanLockedAssetList
          (if t.txType = TxType.LockAsset then
            { pool with lockAssetList := mdelete t.lockPayloadToString pool.lockAssetList }
          else pool) rest := rfl
    rw [hstep]
    apply cleanLockedAssetList_preserve_none rest
    by_cases hb : t.txType = TxType.LockAsset
    · rw [if_pos hb]
      exact mlookup_mdelete_none hn
    · rw [if_neg hb]
      exact hn

theorem cleanLockedAssetList_mem :
    ∀ (txs : List Transaction) (pool : TXNPool) (txn : Transaction),
      txn ∈ txs → txn.txType = TxType.LockAsset →
      mlookup txn.lockPayloadToString (cleanLockedAssetList pool txs).lockAssetList = none
  | [], _, _, hmem, _ => absurd hmem (List.not_mem_nil _)
  | t :: rest, pool, txn, hmem, hlock => by
    have hstep : cleanLockedAssetList pool (t :: rest) =
        cleanLockedAssetList
          (if t.txType = TxType.LockAsset then
            { pool with lockAssetList := mdelete t.lockPayloadToString pool.lockAssetList }
          else pool) rest := rfl
    rw [hstep]
    rcases List.mem_cons.1 hmem with heq | hrest
    · subst heq
      apply cleanLockedAssetList_preserve_none rest
      rw [if_pos hlock]
      exact mlookup_mdelete_self _ _
    · exact cleanLockedAssetList_mem rest _ txn hrest hlock

theorem cleanIssueSummary_frame :
    ∀ (txs : List Transaction) (pool : TXNPool),
      ((cleanIssueSummary pool txs).txnList = pool.txnList) ∧
      ((cleanIssueSummary pool txs).inputUTXOList = pool.inputUTXOList) ∧
      ((cleanIssueSummary pool txs).lockAssetList = pool.lockAssetList)
  | [], pool => ⟨rfl, rfl, rfl⟩
  | t :: rest, pool => by
    have hstep : cleanIssueSummary pool (t :: rest) =
        cleanIssueSummary
          (if t.txType = TxType.IssueAsset then
            decrSummaryAll pool t.getMergedAssetIDValueFromOutputs
          else pool) rest := rfl
    rw [hstep]
    by_cases hb : t.txType = TxType.IssueAsset
    · rw [if_pos hb]
      obtain ⟨h1, h2, h3⟩ := cleanIssueSummary_frame rest
        (decrSummaryAll pool t.getMergedAssetIDValueFromOutputs)
      obtain ⟨g1, g2, g3⟩ := decrSummaryAll_frame t.getMergedAssetIDValueFromOutputs pool
      exact ⟨h1.trans g1, h2.trans g2, h3.trans g3⟩
    · rw [if_neg hb]
      exact cleanIssueSummary_frame rest pool

theorem specIssuedTotal_nonneg :
    ∀ (txs : List Transaction) (a : Nat),
      (∀ t ∈ txs, ∀ q ∈ t.getMergedAssetIDValueFromOutputs, 0 ≤ q.2) →
      0 ≤ specIssuedTotal txs a
  | [], _, _ => le_refl 0
  | t :: rest, a, hd => by
    have h1 : 0 ≤ (if t.txType = TxType.IssueAsset then
        assetAmountIn t.getMergedAssetIDValueFromOutputs a else 0) := by
      split
      · exact assetAmountIn_nonneg _ a (hd t (List.mem_cons_self t rest))
      · exact le_refl 0
    have h2 := specIssuedTotal_nonneg rest a (fun u hu => hd u (List.mem_cons_of_mem t hu))
    show 0 ≤ (if t.txType = TxType.IssueAsset then
        assetAmountIn t.getMergedAssetIDValueFromOutputs a else 0) + specIssuedTotal rest a
    omega

theorem cleanIssueSummary_getAsset :
    ∀ (txs : List Transaction) (pool : TXNPool) (a : Nat),
      (∀ t ∈ txs, ∀ q ∈ t.getMergedAssetIDValueFromOutputs, 0 ≤ q.2) →
      0 ≤ getAssetIssueAmount pool a →
      getAssetIssueAmount (cleanIssueSummary pool txs) a =
        max (getAssetIssueAmount pool a - specIssuedTotal txs a) 0
  | [], pool, a, _, h0 => by
    show getAssetIssueAmount pool a = max (getAssetIssueAmount pool a - specIssuedTotal [] a) 0
    show getAssetIssueAmount pool a = max (getAssetIssueAmount pool a - 0) 0
    rw [sub_zero]
    exact (max_eq_left h0).symm
  | t :: rest, pool, a, hd, h0 => by
    have hstep : cleanIssueSummary pool (t :: rest) =
        cleanIssueSummary
          (if t.txType = TxType.IssueAsset then
            decrSummaryAll pool t.getMergedAssetIDValueFromOutputs
          else pool) rest := rfl
    have htotal : specIssuedTotal (t :: rest) a =
        (if t.txType = TxType.IssueAsset then
          assetAmountIn t.getMergedAssetIDValueFromOutputs a
        else 0) + specIssuedTotal rest a := rfl
    have hdt : ∀ q ∈ t.getMergedAssetIDValueFromOutputs, 0 ≤ q.2 :=
      hd t (List.mem_cons_self t rest)
    have hdrest : ∀ u ∈ rest, ∀ q ∈ u.getMergedAssetIDValueFromOutputs, 0 ≤ q.2 :=
      fun u hu => hd u (List.mem_cons_of_mem t hu)
    rw [hstep, htotal]
    by_cases hb : t.txType = TxType.IssueAsset
    · rw [if_pos hb, if_pos hb]
      have hdec := decrSummaryAll_getAsset t.getMergedAssetIDValueFromOutputs pool a hdt h0
      have h0' : 0 ≤ getAssetIssueAmount
          (decrSummaryAll pool t.getMergedAssetIDValueFromOutputs) a := by
        rw [hdec]
        exact le_max_right _ _
      rw [cleanIssueSummary_getAsset rest _ a hdrest h0', hdec,
        max_sub_right _ _ (specIssuedTotal_nonneg rest a hdrest), sub_sub]
    · rw [if_neg hb, if_neg hb, zero_add]
      exact cleanIssueSummary_getAsset rest pool a hdrest h0

theorem summaryAssetIssueAmountLoop_frame :
    ∀ (l : List (Nat × Int)) (store : TxStore) (pool : TXNPool),
      ((summaryAssetIssueAmountLoop store pool l).1.txnList = pool.txnList) ∧
      ((summaryAssetIssueAmountLoop store pool l).1.inputUTXOList = pool.inputUTXOList) ∧
      ((summaryAssetIssueAmountLoop store pool l).1.lockAssetList = pool.lockAssetList)
  | [], _, _ => ⟨rfl, rfl, rfl⟩
  | (k, delta) :: rest, store, pool => by
    have ih := summaryAssetIssueAmountLoop_frame rest store
      (incrAssetIssueAmountSummary pool k delta)
    simp only [summaryAssetIssueAmountLoop]
    split
    · exact ⟨rfl, rfl, rfl⟩
    · split
      · exact ⟨rfl, rfl, rfl⟩
      · split
        · exact ih
        · split
          · exact ⟨rfl, rfl, rfl⟩
          · split
            · exact ⟨rfl, rfl, rfl⟩
            · exact ih

theorem checkDuplicateLockAsset_not_lock {pool : TXNPool} {txn : Transaction}
    (h : txn.txType ≠ TxType.LockAsset) :
    checkDuplicateLockAsset pool txn = some pool := by
  unfold checkDuplicateLockAsset
  rw [if_neg h]

theorem checkDuplicateLockAsset_dup {pool : TXNPool} {txn : Transaction}
    (hl : txn.txType = TxType.LockAsset)
    (hdup : (mlookup txn.lockPayloadToString pool.lockAssetList).isSome = true) :
    checkDuplicateLockAsset pool txn = none := by
  unfold checkDuplicateLockAsset
  rw [if_pos hl, if_pos hdup]

theorem apendToUTXOPool_of_unclaimed {pool : TXNPool} {txn : Transaction}
    {reference : List UTXOTxInput} (href : txn.getReference = some reference)
    (hall : ∀ r ∈ reference, getInputUTXOList pool r = none) :
    apendToUTXOPool pool txn = some (addUTXOs pool txn reference) := by
  have hany : reference.any (fun k => (getInputUTXOList pool k).isSome) = false := by
    rw [List.any_eq_false]
    intro r hr
    rw [hall r hr]
    exact Bool.false_ne_true
  unfold apendToUTXOPool
  simp only [href, hany, Bool.false_eq_true, if_false]

theorem apendToUTXOPool_of_claimed {pool : TXNPool} {txn : Transaction}
    {reference : List UTXOTxInput} {r : UTXOTxInput}
    (href : txn.getReference = some reference) (hr : r ∈ reference)
    (hsome : (getInputUTXOList pool r).isSome = true) :
    apendToUTXOPool pool txn = none := by
  have hany : reference.any (fun k => (getInputUTXOList pool k).isSome) = true :=
    List.any_eq_true.2 ⟨r, hr, hsome⟩
  unfold apendToUTXOPool
  simp only [href, hany, if_true]

theorem verifyTransactionWithTxnPool_double_spend {store : TxStore} {pool : TXNPool}
    {txn : Transaction} (h : apendToUTXOPool pool txn = none) :
    verifyTransactionWithTxnPool store pool txn = (pool, ErrCode.ErrDoubleSpend) := by
  unfold verifyTransactionWithTxnPool
  simp only [h]

theorem verifyTransactionWithTxnPool_dup_lock {store : TxStore} {pool pool1 : TXNPool}
    {txn : Transaction} (h1 : apendToUTXOPool pool txn = some pool1)
    (h2 : checkDuplicateLockAsset pool1 txn = none) :
    verifyTransactionWithTxnPool store pool txn = (pool1, ErrCode.ErrDuplicateLockAsset) := by
  unfold verifyTransactionWithTxnPool
  simp only [h1, h2]

theorem verifyTransactionWithTxnPool_summary_fail {store : TxStore}
    {pool pool1 pool2 pool3 : TXNPool} {txn : Transaction}
    (h1 : apendToUTXOPool pool txn = some pool1)
    (h2 : checkDuplicateLockAsset pool1 txn = some pool2)
    (h3 : summaryAssetIssueAmount store pool2 txn = (pool3, false)) :
    verifyTransactionWithTxnPool store pool txn =
      (removeTransaction pool3 txn, ErrCode.ErrSummaryAsset) := by
  unfold verifyTransactionWithTxnPool
  simp only [h1, h2, h3]

theorem removeTransaction_lockAssetList (pool : TXNPool) (txn : Transaction) :
    (removeTransaction pool txn).lockAssetList = pool.lockAssetList := by
  obtain ⟨d1, d2, d3⟩ := deltxnList_frame pool txn
  simp only [removeTransaction]
  split
  · exact d3
  · split
    · exact ((delUTXOs_frame _ _).2.2).trans d3
    · exact ((decrSummaryAll_frame _ _).2.2).trans
        (((delUTXOs_frame _ _).2.2).trans d3)

theorem removeTransaction_hash_none (pool : TXNPool) (txn : Transaction) :
    mlookup txn.hash (removeTransaction pool txn).txnList = none := by
  have hdel : mlookup txn.hash ((deltxnList pool txn).1).txnList = none := by
    rw [deltxnList_txnList]
    exact mlookup_mdelete_self _ _
  simp only [removeTransaction]
  split
  · exact hdel
  · split
    · rw [(delUTXOs_frame _ _).1]
      exact hdel
    · rw [(decrSummaryAll_frame _ _).1, (delUTXOs_frame _ _).1]
      exact hdel

/-! ### Concrete objects used by witnesses and counterexamples -/

/-- A ledger store that knows nothing. -/
def store0 : TxStore := ⟨fun _ => none, fun _ => none⟩

/-- External validators that accept everything. -/
def ext0 : Externals := ⟨fun _ => ErrCode.ErrNoError, fun _ => ErrCode.ErrNoError⟩

def input50 : UTXOTxInput := ⟨50, 1⟩

def input100 : UTXOTxInput := ⟨100, 0⟩

def emptyPool : TXNPool := ⟨[], [], [], []⟩

/-- An ordinary transfer consuming one output. -/
def txTransfer9 : Transaction := ⟨9, TxType.TransferAsset, "", 0, some [input50], []⟩

/-- Registration record for asset 5 with cap 3. -/
def regCap3 : Transaction := ⟨500, TxType.RegisterAsset, "", 3, none, []⟩

/-- Registration record for asset 7 with cap 100. -/
def regCap100 : Transaction := ⟨700, TxType.RegisterAsset, "", 100, none, []⟩

/-- A store registering assets 5 (cap 3) and 7 (cap 100), nothing issued yet. -/
def storeIssue : TxStore :=
  ⟨fun k => if k = 5 then some regCap3 else if k = 7 then some regCap100 else none,
   fun _ => some 0⟩

/-- An `IssueAsset` transaction issuing 5 units of asset 5 and 7 units of asset 7. -/
def txIssue2 : Transaction := ⟨2, TxType.IssueAsset, "", 0, some [], [(5, 5), (7, 7)]⟩

/-- A pool whose issuance summary carries 10 pending units of asset 7
(contributed by some other pending transaction). -/
def poolSummary7 : TXNPool := ⟨[], [(7, 10)], [], []⟩

/-- A `LockAsset` transaction with one input and lock target string L. -/
def txLock1 : Transaction := ⟨1, TxType.LockAsset, "L", 0, some [input100], []⟩

/-- A pool whose duplicate-lock guard already holds L. -/
def poolGuardL : TXNPool := ⟨[], [], [], [("L", ())]⟩

/-- A pending `LockAsset` transaction with lock target string G. -/
def txLock3 : Transaction := ⟨3, TxType.LockAsset, "G", 0, some [], []⟩

/-- A pool holding `txLock3` and its guard entry. -/
def poolLock3 : TXNPool := ⟨[(3, txLock3)], [], [], [("G", ())]⟩

/-- An `IssueAsset` transaction issuing 5 units of asset 5, consuming one output. -/
def txIssue4 : Transaction := ⟨4, TxType.IssueAsset, "", 0, some [input50], [(5, 5)]⟩

/-- A pool with 2 pending units of asset 5 in the issuance summary. -/
def poolPend5 : TXNPool := ⟨[], [(5, 2)], [], []⟩

/-- An admitted `IssueAsset` transaction issuing 5 units of asset 5. -/
def txIssue6 : Transaction := ⟨6, TxType.IssueAsset, "", 0, some [input100], [(5, 5)]⟩

/-- The pool state right after `txIssue6` was admitted. -/
def poolBlock6 : TXNPool := ⟨[(6, txIssue6)], [(5, 5)], [(input100, txIssue6)], []⟩

/-- A pool holding `txIssue2` plus summary entries of other transactions. -/
def poolRemove2 : TXNPool := ⟨[(2, txIssue2)], [(5, 9), (7, 10)], [], []⟩

/-- A pool with two pending transactions. -/
def poolTwo : TXNPool := ⟨[(11, txTransfer9), (12, txLock3)], [], [], []⟩

/-! ### The claims -/

/-- C1: for every transaction verified against the pool, if any output it
references as input is already present in the claimed-input index,
`verifyTransactionWithTxnPool` returns `DoubleSpend` and no entry of any
index is added or removed (the pool is returned unchanged); otherwise the
double-spend check records the transaction in the claimed-input index as
the claimant of every one of its referenced outputs, leaving the other
indexes untouched. -/
theorem C1_double_spend_guard (store : TxStore) (pool : TXNPool) (txn : Transaction)
    (reference : List UTXOTxInput) (href : txn.getReference = some reference) :
    ((∃ r ∈ reference, (getInputUTXOList pool r).isSome = true) →
      verifyTransactionWithTxnPool store pool txn = (pool, ErrCode.ErrDoubleSpend)) ∧
    ((∀ r ∈ reference, getInputUTXOList pool r = none) →
      apendToUTXOPool pool txn = some (addUTXOs pool txn reference) ∧
      (∀ r ∈ reference, getInputUTXOList (addUTXOs pool txn reference) r = some txn) ∧
      (addUTXOs pool txn reference).txnList = pool.txnList ∧
      (addUTXOs pool txn reference).issueSummary = pool.issueSummary ∧
      (addUTXOs pool txn reference).lockAssetList = pool.lockAssetList) := by
  constructor
  · rintro ⟨r, hr, hsome⟩
    exact verifyTransactionWithTxnPool_double_spend (apendToUTXOPool_of_claimed href hr hsome)
  · intro hall
    refine ⟨apendToUTXOPool_of_unclaimed href hall, ?_,
      (addUTXOs_frame reference pool txn).1, (addUTXOs_frame reference pool txn).2.1,
      (addUTXOs_frame reference pool txn).2.2⟩
    intro r hr
    exact addUTXOs_mlookup_mem reference pool txn (fun s hs => Or.inl (hall s hs)) r hr

theorem C1_double_spend_guard_witness :
    txTransfer9.getReference = some [input50] ∧
    (∀ r ∈ [input50], getInputUTXOList emptyPool r = none) ∧
    apendToUTXOPool emptyPool txTransfer9 = some (addUTXOs emptyPool txTransfer9 [input50]) ∧
    getInputUTXOList (addUTXOs emptyPool txTransfer9 [input50]) input50 = some txTransfer9 := by
  refine ⟨rfl, by decide, ?_, ?_⟩
  · exact ((C1_double_spend_guard store0 emptyPool txTransfer9 [input50] rfl).2 (by decide)).1
  · exact ((C1_double_spend_guard store0 emptyPool txTransfer9 [input50] rfl).2
      (by decide)).2.1 input50 (by decide)

/-- C2: for every `IssueAsset` transaction and the first asset `k` it
issues, the verifier first adds the issued amount `d` to the issuance
summary for `k`; then, if the registration record for `k` carries the
unbounded-cap marker (a negative registered amount), this asset is
exempt from the cap check and the loop continues on the remaining
assets; otherwise it fails with the issuance-cap result exactly when
`(cap − confirmed-issued) < pending summary for k` (where the pending
summary already includes the freshly added `d`). -/
theorem C2_issuance_cap_check (store : TxStore) (pool : TXNPool) (txn : Transaction)
    (k : Nat) (d : Int) (rest : List (Nat × Int)) (reg : Transaction)
    (ht : txn.txType = TxType.IssueAsset)
    (hm : txn.getMergedAssetIDValueFromOutputs = (k, d) :: rest)
    (hreg : store.getTransaction k = some reg)
    (hrt : reg.txType = TxType.RegisterAsset) :
    (reg.registerAmount < 0 →
      summaryAssetIssueAmount store pool txn =
        summaryAssetIssueAmountLoop store (incrAssetIssueAmountSummary pool k d) rest) ∧
    (∀ q : Int, 0 ≤ reg.registerAmount → store.getQuantityIssued k = some q →
      (reg.registerAmount - q < getAssetIssueAmount pool k + d →
        summaryAssetIssueAmount store pool txn =
          (incrAssetIssueAmountSummary pool k d, false)) ∧
      (getAssetIssueAmount pool k + d ≤ reg.registerAmount - q →
        summaryAssetIssueAmount store pool txn =
          summaryAssetIssueAmountLoop store (incrAssetIssueAmountSummary pool k d) rest)) := by
  have hbase : summaryAssetIssueAmount store pool txn =
      summaryAssetIssueAmountLoop store pool ((k, d) :: rest) := by
    unfold summaryAssetIssueAmount
    rw [if_neg (fun hne => hne ht), hm]
  have hne : ¬ reg.txType ≠ TxType.RegisterAsset := fun hc => hc hrt
  constructor
  · intro hunb
    rw [hbase]
    simp only [summaryAssetIssueAmountLoop, hreg, if_neg hne, if_pos hunb]
  · intro q hcap hq
    have hnunb : ¬ reg.registerAmount < 0 := by omega
    constructor
    · intro hlt
      rw [hbase]
      have hlt1 : reg.registerAmount - q <
          getAssetIssueAmount (incrAssetIssueAmountSummary pool k d) k := by
        rw [getAssetIssueAmount_incr_self]
        exact hlt
      simp only [summaryAssetIssueAmountLoop, hreg, if_neg hne, if_neg hnunb, hq,
        if_pos hlt1]
    · intro hge
      rw [hbase]
      have hge1 : ¬ reg.registerAmount - q <
          getAssetIssueAmount (incrAssetIssueAmountSummary pool k d) k := by
        rw [getAssetIssueAmount_incr_self]
        omega
      simp only [summaryAssetIssueAmountLoop, hreg, if_neg hne, if_neg hnunb, hq,
        if_neg hge1]

theorem C2_issuance_cap_check_witness :
    storeIssue.getTransaction 5 = some regCap3 ∧
    regCap3.txType = TxType.RegisterAsset ∧
    storeIssue.getQuantityIssued 5 = some 0 ∧
    summaryAssetIssueAmount storeIssue poolPend5 txIssue4 =
      (incrAssetIssueAmountSummary poolPend5 5 5, false) :=
  ⟨rfl, rfl, rfl,
    ((C2_issuance_cap_check storeIssue poolPend5 txIssue4 5 5 [] regCap3
      rfl rfl rfl rfl).2 0 (by decide) rfl).1 (by decide)⟩

theorem txnCopyLoop_all (count : Int) :
    ∀ (l : List (Nat × Transaction)) (num : Int), num + l.length ≤ count →
      txnCopyLoop count l num = l
  | [], _, _ => rfl
  | p :: rest, num, h => by
    simp only [List.length_cons] at h
    simp only [txnCopyLoop]
    by_cases hb : num + 1 ≥ count
    · rw [if_pos hb]
      have hz : rest.length = 0 := by omega
      rw [List.length_eq_zero.1 hz]
    · rw [if_neg hb]
      rw [txnCopyLoop_all count rest (num + 1) (by omega)]

theorem txnCopyLoop_length_le (count : Int) :
    ∀ (l : List (Nat × Transaction)) (num : Int), num < count →
      ((txnCopyLoop count l num).length : Int) ≤ count - num
  | [], _, h => by
    simp only [txnCopyLoop, List.length_nil]
    omega
  | p :: rest, num, h => by
    simp only [txnCopyLoop]
    by_cases hb : num + 1 ≥ count
    · rw [if_pos hb]
      simp only [List.length_cons, List.length_nil]
      omega
    · rw [if_neg hb]
      have := txnCopyLoop_length_le count rest (num + 1) (by omega)
      simp only [List.length_cons]
      omega

/-- C8: when the configured candidate maximum is at most zero,
`GetTxnPool` returns exactly the full pending set regardless of the
`byCount` argument; when the maximum is positive and `byCount` is set,
it returns at most that many entries. -/
theorem C8_get_txn_pool (maxTxInBlock : Int) (pool : TXNPool) (byCount : Bool) :
    (maxTxInBlock ≤ 0 → GetTxnPool maxTxInBlock pool byCount = pool.txnList) ∧
    (0 < maxTxInBlock → byCount = true →
      ((GetTxnPool maxTxInBlock pool byCount).length : Int) ≤ maxTxInBlock) := by
  constructor
  · intro hle
    simp only [GetTxnPool, if_pos hle]
    rw [if_pos (Or.inr trivial)]
    exact txnCopyLoop_all _ pool.txnList 0 (by omega)
  · intro hpos hby
    have hnle : ¬ maxTxInBlock ≤ 0 := by omega
    by_cases h0 : pool.txnList = []
    · simp only [GetTxnPool, if_neg hnle, hby, h0]
      simp only [txnCopyLoop, List.length_nil]
      omega
    · have hlen : pool.txnList.length ≠ 0 := by
        intro hc0
        exact h0 (List.length_eq_zero.1 hc0)
      simp only [GetTxnPool, if_neg hnle, hby]
      split
      · next hc =>
        have hlt : (pool.txnList.length : Int) < maxTxInBlock := by
          rcases hc with hlt | hfalse
          · exact hlt
          · exact absurd hfalse (by simp)
        have := txnCopyLoop_length_le ((pool.txnList.length : Nat) : Int)
          pool.txnList 0 (by omega)
        omega
      · next hc =>
        have := txnCopyLoop_length_le maxTxInBlock pool.txnList 0 (by omega)
        omega

theorem C8_get_txn_pool_witness :
    GetTxnPool 0 poolTwo true = poolTwo.txnList ∧
    ((GetTxnPool 1 poolTwo true).length : Int) ≤ 1 :=
  ⟨(C8_get_txn_pool 0 poolTwo true).1 (by decide),
   (C8_get_txn_pool 1 poolTwo true).2 (by decide) rfl⟩

/-- C10: decrementing the issuance summary for an asset with no summary
entry leaves the pool entirely unchanged (no zero entry is created); for
an asset with an existing entry the stored value becomes
`max (old − decrement) 0`, which is never negative. -/
theorem C10_decr_summary (pool : TXNPool) (assetId : Nat) (delta : Int) :
    (mlookup assetId pool.issueSummary = none →
      decrAssetIssueAmountSummary pool assetId delta = pool) ∧
    (∀ v : Int, mlookup assetId pool.issueSummary = some v →
      mlookup assetId (decrAssetIssueAmountSummary pool assetId delta).issueSummary =
        some (max (v - delta) 0) ∧ 0 ≤ max (v - delta) 0) := by
  constructor
  · intro h
    unfold decrAssetIssueAmountSummary
    rw [h]
  · intro v h
    simp only [decrAssetIssueAmountSummary, h]
    constructor
    · rw [mlookup_minsert_self]
      congr 1
      rw [max_def]
      split_ifs <;> omega
    · exact le_max_right _ _

theorem C10_decr_summary_witness :
    mlookup 7 poolSummary7.issueSummary = some 10 ∧
    mlookup 7 (decrAssetIssueAmountSummary poolSummary7 7 7).issueSummary =
      some (max (10 - 7) 0) ∧
    mlookup 5 poolSummary7.issueSummary = none ∧
    decrAssetIssueAmountSummary poolSummary7 5 3 = poolSummary7 :=
  ⟨by decide, ((C10_decr_summary poolSummary7 7 7).2 10 (by decide)).1, by decide,
   (C10_decr_summary poolSummary7 5 3).1 (by decide)⟩

theorem apendToUTXOPool_frame {pool pool1 : TXNPool} {txn : Transaction}
    (h : apendToUTXOPool pool txn = some pool1) :
    pool1.txnList = pool.txnList ∧ pool1.issueSummary = pool.issueSummary ∧
    pool1.lockAssetList = pool.lockAssetList := by
  unfold apendToUTXOPool at h
  cases href : txn.getReference with
  | none =>
    rw [href] at h
    cases h
  | some reference =>
    simp only [href] at h
    by_cases hc : reference.any (fun k => (getInputUTXOList pool k).isSome) = true
    · rw [if_pos hc] at h
      cases h
    · rw [if_neg hc] at h
      injection h with h1
      rw [← h1]
      exact addUTXOs_frame reference pool txn

theorem getAssetIssueAmount_congr {p1 p2 : TXNPool}
    (h : p1.issueSummary = p2.issueSummary) (a : Nat) :
    getAssetIssueAmount p1 a = getAssetIssueAmount p2 a := by
  unfold getAssetIssueAmount
  rw [h]

theorem mlookup_decr_self {pool : TXNPool} {assetId : Nat} {v : Int} (delta : Int)
    (h : mlookup assetId pool.issueSummary = some v) :
    mlookup assetId (decrAssetIssueAmountSummary pool assetId delta).issueSummary =
      some (max (v - delta) 0) := by
  simp only [decrAssetIssueAmountSummary, h]
  rw [mlookup_minsert_self]
  congr 1
  rw [max_def]
  split_ifs <;> omega

theorem getAssetIssueAmount_decr_ne (pool : TXNPool) {k a : Nat} (d : Int) (h : a ≠ k) :
    getAssetIssueAmount (decrAssetIssueAmountSummary pool k d) a =
      getAssetIssueAmount pool a := by
  cases hm : mlookup k pool.issueSummary with
  | none => simp only [decrAssetIssueAmountSummary, hm]
  | some v =>
    simp only [decrAssetIssueAmountSummary, hm, getAssetIssueAmount]
    rw [mlookup_minsert_ne h]

theorem summaryAssetIssueAmount_single_fail {store : TxStore} {pool : TXNPool}
    {txn : Transaction} {k : Nat} {d : Int} {reg : Transaction} {q : Int}
    (ht : txn.txType = TxType.IssueAsset)
    (hm : txn.getMergedAssetIDValueFromOutputs = [(k, d)])
    (hreg : store.getTransaction k = some reg)
    (hrt : reg.txType = TxType.RegisterAsset)
    (hcap : 0 ≤ reg.registerAmount)
    (hq : store.getQuantityIssued k = some q)
    (hexceed : reg.registerAmount - q < getAssetIssueAmount pool k + d) :
    summaryAssetIssueAmount store pool txn =
      (incrAssetIssueAmountSummary pool k d, false) := by
  have hbase : summaryAssetIssueAmount store pool txn =
      summaryAssetIssueAmountLoop store pool [(k, d)] := by
    unfold summaryAssetIssueAmount
    rw [if_neg (fun hne => hne ht), hm]
  have hne : ¬ reg.txType ≠ TxType.RegisterAsset := fun hc => hc hrt
  have hnunb : ¬ reg.registerAmount < 0 := by omega
  have hlt1 : reg.registerAmount - q <
      getAssetIssueAmount (incrAssetIssueAmountSummary pool k d) k := by
    rw [getAssetIssueAmount_incr_self]
    exact hexceed
  rw [hbase]
  simp only [summaryAssetIssueAmountLoop, hreg, if_neg hne, if_neg hnunb, hq, if_pos hlt1]

/-- C3 is refuted by the code: a `LockAsset` transaction with one input
whose lock identifier is already in the guard is rejected with
`DuplicateLockAsset`, yet its claimed input, recorded by the preceding
double-spend check, remains in the claimed-input index afterwards. -/
theorem C3_duplock_counterexample :
    (verifyTransactionWithTxnPool store0 poolGuardL txLock1).2 =
      ErrCode.ErrDuplicateLockAsset ∧
    mlookup input100
      (verifyTransactionWithTxnPool store0 poolGuardL txLock1).1.inputUTXOList =
      some txLock1 ∧
    mlookup input100 poolGuardL.inputUTXOList = none := by
  decide

/-- C3 (amended): a transaction rejected with `DuplicateLockAsset` fails
before any mutation of the duplicate-lock guard itself: afterwards the
guard, the issuance summary and the pending set are exactly as before
the call; however, the claimed-input entries the double-spend check
recorded for the transaction in check 1 are NOT rolled back — the
resulting pool is the one produced by `apendToUTXOPool`. -/
theorem C3_duplock_amended (store : TxStore) (pool pool1 : TXNPool) (txn : Transaction)
    (ht : txn.txType = TxType.LockAsset)
    (hdup : (mlookup txn.lockPayloadToString pool.lockAssetList).isSome = true)
    (hap : apendToUTXOPool pool txn = some pool1) :
    verifyTransactionWithTxnPool store pool txn = (pool1, ErrCode.ErrDuplicateLockAsset) ∧
    pool1.lockAssetList = pool.lockAssetList ∧
    pool1.issueSummary = pool.issueSummary ∧
    pool1.txnList = pool.txnList := by
  obtain ⟨hf1, hf2, hf3⟩ := apendToUTXOPool_frame hap
  have hchk : checkDuplicateLockAsset pool1 txn = none := by
    apply checkDuplicateLockAsset_dup ht
    rw [hf3]
    exact hdup
  exact ⟨verifyTransactionWithTxnPool_dup_lock hap hchk, hf3, hf2, hf1⟩

theorem C3_duplock_amended_witness :
    txLock1.txType = TxType.LockAsset ∧
    (mlookup txLock1.lockPayloadToString poolGuardL.lockAssetList).isSome = true ∧
    apendToUTXOPool poolGuardL txLock1 = some (addUTXOs poolGuardL txLock1 [input100]) ∧
    verifyTransactionWithTxnPool store0 poolGuardL txLock1 =
      (addUTXOs poolGuardL txLock1 [input100], ErrCode.ErrDuplicateLockAsset) :=
  ⟨rfl, by decide, by decide,
    (C3_duplock_amended store0 poolGuardL (addUTXOs poolGuardL txLock1 [input100]) txLock1
      rfl (by decide) (by decide)).1⟩

/-- C4 is refuted by the code: `txIssue2` issues assets 5 and 7, the cap
check fails on asset 5 after only asset 5's amount was added to the
summary, and the rollback subtracts BOTH per-asset amounts — reducing
the issuance-summary entry of asset 7, which belongs to another pending
transaction, from 10 to 3. -/
theorem C4_rollback_counterexample :
    (verifyTransactionWithTxnPool storeIssue poolSummary7 txIssue2).2 =
      ErrCode.ErrSummaryAsset ∧
    getAssetIssueAmount poolSummary7 7 = 10 ∧
    getAssetIssueAmount (verifyTransactionWithTxnPool storeIssue poolSummary7 txIssue2).1 7
      = 3 := by
  decide

/-- C4 (amended): for a transaction issuing a SINGLE asset that is
rejected by the issuance-cap check, the compensating rollback runs
before the call returns and restores the observable pool state: every
claimed-input lookup, every issuance-summary amount, the pending set and
the lock guard read as before the call.  (When the transaction issues
several assets the rollback may also subtract amounts that were never
added, decreasing other pending transactions' summary entries — see the
counterexample.) -/
theorem C4_rollback_amended (store : TxStore) (pool : TXNPool) (txn : Transaction)
    (k : Nat) (d : Int) (reg : Transaction) (q : Int) (reference : List UTXOTxInput)
    (ht : txn.txType = TxType.IssueAsset)
    (hm : txn.getMergedAssetIDValueFromOutputs = [(k, d)])
    (href : txn.getReference = some reference)
    (hall : ∀ r ∈ reference, getInputUTXOList pool r = none)
    (hhash : mlookup txn.hash pool.txnList = none)
    (hreg : store.getTransaction k = some reg)
    (hrt : reg.txType = TxType.RegisterAsset)
    (hcap : 0 ≤ reg.registerAmount)
    (hq : store.getQuantityIssued k = some q)
    (hexceed : reg.registerAmount - q < getAssetIssueAmount pool k + d)
    (h0 : 0 ≤ getAssetIssueAmount pool k) :
    (verifyTransactionWithTxnPool store pool txn).2 = ErrCode.ErrSummaryAsset ∧
    (∀ r : UTXOTxInput, getInputUTXOList (verifyTransactionWithTxnPool store pool txn).1 r =
      getInputUTXOList pool r) ∧
    (∀ a : Nat, getAssetIssueAmount (verifyTransactionWithTxnPool store pool txn).1 a =
      getAssetIssueAmount pool a) ∧
    (verifyTransactionWithTxnPool store pool txn).1.txnList = pool.txnList ∧
    (verifyTransactionWithTxnPool store pool txn).1.lockAssetList = pool.lockAssetList := by
  have hap : apendToUTXOPool pool txn = some (addUTXOs pool txn reference) :=
    apendToUTXOPool_of_unclaimed href hall
  obtain ⟨hf1, hf2, hf3⟩ := addUTXOs_frame reference pool txn
  have hnotlock : txn.txType ≠ TxType.LockAsset := by
    rw [ht]
    decide
  have hchk : checkDuplicateLockAsset (addUTXOs pool txn reference) txn =
      some (addUTXOs pool txn reference) := checkDuplicateLockAsset_not_lock hnotlock
  have hexceed1 : reg.registerAmount - q <
      getAssetIssueAmount (addUTXOs pool txn reference) k + d := by
    rw [getAssetIssueAmount_congr hf2 k]
    exact hexceed
  have hsum : summaryAssetIssueAmount store (addUTXOs pool txn reference) txn =
      (incrAssetIssueAmountSummary (addUTXOs pool txn reference) k d, false) :=
    summaryAssetIssueAmount_single_fail ht hm hreg hrt hcap hq hexceed1
  have hver : verifyTransactionWithTxnPool store pool txn =
      (removeTransaction
        (incrAssetIssueAmountSummary (addUTXOs pool txn reference) k d) txn,
       ErrCode.ErrSummaryAsset) :=
    verifyTransactionWithTxnPool_summary_fail hap hchk hsum
  have hlook3 : mlookup txn.hash
      (incrAssetIssueAmountSummary (addUTXOs pool txn reference) k d).txnList = none := by
    show mlookup txn.hash (addUTXOs pool txn reference).txnList = none
    rw [hf1]
    exact hhash
  have hnn : ¬ txn.txType ≠ TxType.IssueAsset := fun hc => hc ht
  have hrm : removeTransaction
      (incrAssetIssueAmountSummary (addUTXOs pool txn reference) k d) txn =
      decrSummaryAll
        (delUTXOs (incrAssetIssueAmountSummary (addUTXOs pool txn reference) k d) reference)
        [(k, d)] := by
    simp only [removeTransaction, deltxnList_of_none hlook3, href, if_neg hnn, hm]
  obtain ⟨hd1, hd2, hd3⟩ := delUTXOs_frame reference
    (incrAssetIssueAmountSummary (addUTXOs pool txn reference) k d)
  obtain ⟨hg1, hg2, hg3⟩ := decrSummaryAll_frame [(k, d)]
    (delUTXOs (incrAssetIssueAmountSummary (addUTXOs pool txn reference) k d) reference)
  refine ⟨by rw [hver], ?_, ?_, ?_, ?_⟩
  · intro r
    rw [hver]
    show mlookup r (removeTransaction
      (incrAssetIssueAmountSummary (addUTXOs pool txn reference) k d) txn).inputUTXOList =
      getInputUTXOList pool r
    rw [hrm, hg2, delUTXOs_mlookup_eq]
    by_cases hr : r ∈ reference
    · rw [if_pos hr]
      exact (hall r hr).symm
    · rw [if_neg hr]
      show mlookup r (addUTXOs pool txn reference).inputUTXOList = getInputUTXOList pool r
      exact addUTXOs_mlookup_notmem reference pool txn r hr
  · intro a
    rw [hver]
    show getAssetIssueAmount (removeTransaction
      (incrAssetIssueAmountSummary (addUTXOs pool txn reference) k d) txn) a =
      getAssetIssueAmount pool a
    rw [hrm]
    show getAssetIssueAmount (decrAssetIssueAmountSummary
      (delUTXOs (incrAssetIssueAmountSummary (addUTXOs pool txn reference) k d) reference)
      k d) a = getAssetIssueAmount pool a
    by_cases hak : a = k
    · subst hak
      have h1 : mlookup a
          (delUTXOs (incrAssetIssueAmountSummary (addUTXOs pool txn reference) a d)
            reference).issueSummary =
          some (getAssetIssueAmount (addUTXOs pool txn reference) a + d) := by
        rw [hd2]
        exact mlookup_incr_self (addUTXOs pool txn reference) a d
      unfold getAssetIssueAmount
      rw [mlookup_decr_self d h1]
      have h2 : getAssetIssueAmount (addUTXOs pool txn reference) a =
          getAssetIssueAmount pool a := getAssetIssueAmount_congr hf2 a
      rw [h2]
      show max (getAssetIssueAmount pool a + d - d) 0 = (mlookup a pool.issueSummary).getD 0
      have h3 : getAssetIssueAmount pool a + d - d = getAssetIssueAmount pool a := by ring
      rw [h3, max_def]
      show (if getAssetIssueAmount pool a ≤ 0 then 0 else getAssetIssueAmount pool a) =
        getAssetIssueAmount pool a
      split_ifs with hx
      · omega
      · rfl
    · rw [getAssetIssueAmount_decr_ne _ d hak, getAssetIssueAmount_congr hd2 a,
        getAssetIssueAmount_incr_ne _ d hak, getAssetIssueAmount_congr hf2 a]
  · rw [hver]
    show (removeTransaction
      (incrAssetIssueAmountSummary (addUTXOs pool txn reference) k d) txn).txnList =
      pool.txnList
    rw [hrm, hg1, hd1]
    exact hf1
  · rw [hver]
    show (removeTransaction
      (incrAssetIssueAmountSummary (addUTXOs pool txn reference) k d) txn).lockAssetList =
      pool.lockAssetList
    rw [hrm, hg3, hd3]
    exact hf3

theorem C4_rollback_amended_witness :
    txIssue4.getMergedAssetIDValueFromOutputs = [(5, 5)] ∧
    storeIssue.getTransaction 5 = some regCap3 ∧
    regCap3.registerAmount - 0 < getAssetIssueAmount poolPend5 5 + 5 ∧
    (verifyTransactionWithTxnPool storeIssue poolPend5 txIssue4).2 =
      ErrCode.ErrSummaryAsset ∧
    getInputUTXOList (verifyTransactionWithTxnPool storeIssue poolPend5 txIssue4).1 input50 =
      getInputUTXOList poolPend5 input50 ∧
    getAssetIssueAmount (verifyTransactionWithTxnPool storeIssue poolPend5 txIssue4).1 5 =
      getAssetIssueAmount poolPend5 5 ∧
    (verifyTransactionWithTxnPool storeIssue poolPend5 txIssue4).1.txnList =
      poolPend5.txnList := by
  have happ := C4_rollback_amended storeIssue poolPend5 txIssue4 5 5 regCap3 0 [input50]
    rfl rfl rfl (by decide) (by decide) rfl rfl (by decide) rfl (by decide) (by decide)
  exact ⟨rfl, rfl, by decide, happ.1, happ.2.1 input50, happ.2.2.1 5, happ.2.2.2.1⟩

/-- C5 is refuted by the code: `removeTransaction` applied to a pending
`LockAsset` transaction removes it from the pending set but does NOT
remove its duplicate-lock guard entry — the guard entry G survives. -/
theorem C5_remove_counterexample :
    txLock3.txType = TxType.LockAsset ∧
    mlookup txLock3.lockPayloadToString poolLock3.lockAssetList = some () ∧
    mlookup txLock3.lockPayloadToString
      (removeTransaction poolLock3 txLock3).lockAssetList = some () ∧
    mlookup txLock3.hash (removeTransaction poolLock3 txLock3).txnList = none := by
  decide

/-- C5 (amended): single-transaction removal removes the transaction
from the pending set, releases every output it claimed from the
claimed-input index, and, when it is an `IssueAsset` transaction,
subtracts its per-asset issued amounts from the issuance summary with
each resulting value clamped at zero; for a non-`IssueAsset` transaction
the issuance summary is untouched.  However, it never touches the
duplicate-lock guard: the guard list is left exactly as it was, even for
`LockAsset` transactions (guard entries are only removed by the
block-commit cleanup). -/
theorem C5_remove_amended (pool : TXNPool) (txn : Transaction)
    (reference : List UTXOTxInput) (href : txn.getReference = some reference)
    (hd : ∀ p ∈ txn.getMergedAssetIDValueFromOutputs, 0 ≤ p.2)
    (hpos : ∀ p ∈ pool.issueSummary, 0 ≤ p.2) :
    mlookup txn.hash (removeTransaction pool txn).txnList = none ∧
    (∀ r ∈ reference, getInputUTXOList (removeTransaction pool txn) r = none) ∧
    (removeTransaction pool txn).lockAssetList = pool.lockAssetList ∧
    (txn.txType = TxType.IssueAsset →
      ∀ a : Nat, getAssetIssueAmount (removeTransaction pool txn) a =
        max (getAssetIssueAmount pool a -
          assetAmountIn txn.getMergedAssetIDValueFromOutputs a) 0) ∧
    (txn.txType ≠ TxType.IssueAsset →
      (removeTransaction pool txn).issueSummary = pool.issueSummary) := by
  obtain ⟨e1, e2, e3⟩ := deltxnList_frame pool txn
  obtain ⟨u1, u2, u3⟩ := delUTXOs_frame reference (deltxnList pool txn).1
  have hsumeq : (delUTXOs (deltxnList pool txn).1 reference).issueSummary =
      pool.issueSummary := u2.trans e1
  refine ⟨removeTransaction_hash_none pool txn, ?_,
    removeTransaction_lockAssetList pool txn, ?_, ?_⟩
  · intro r hr
    show mlookup r (removeTransaction pool txn).inputUTXOList = none
    have hbase : mlookup r (delUTXOs (deltxnList pool txn).1 reference).inputUTXOList =
        none := by
      rw [delUTXOs_mlookup_eq, if_pos hr]
    simp only [removeTransaction, href]
    split
    · exact hbase
    · rw [(decrSummaryAll_frame _ _).2.1]
      exact hbase
  · intro hb a
    have hnn : ¬ txn.txType ≠ TxType.IssueAsset := fun hc => hc hb
    have hrw : removeTransaction pool txn =
        decrSummaryAll (delUTXOs (deltxnList pool txn).1 reference)
          txn.getMergedAssetIDValueFromOutputs := by
      simp only [removeTransaction, href, if_neg hnn]
    have h0 : 0 ≤ getAssetIssueAmount (delUTXOs (deltxnList pool txn).1 reference) a := by
      rw [getAssetIssueAmount_congr hsumeq a]
      exact getAssetIssueAmount_nonneg hpos a
    rw [hrw, decrSummaryAll_getAsset _ _ a hd h0, getAssetIssueAmount_congr hsumeq a]
  · intro hb
    have hrw : removeTransaction pool txn = delUTXOs (deltxnList pool txn).1 reference := by
      simp only [removeTransaction, href, if_pos hb]
    rw [hrw]
    exact hsumeq

theorem C5_remove_amended_witness :
    txIssue2.getReference = some [] ∧
    (∀ p ∈ txIssue2.getMergedAssetIDValueFromOutputs, 0 ≤ p.2) ∧
    (∀ p ∈ poolRemove2.issueSummary, 0 ≤ p.2) ∧
    mlookup txIssue2.hash (removeTransaction poolRemove2 txIssue2).txnList = none ∧
    (removeTransaction poolRemove2 txIssue2).lockAssetList = poolRemove2.lockAssetList ∧
    getAssetIssueAmount (removeTransaction poolRemove2 txIssue2) 5 =
      max (getAssetIssueAmount poolRemove2 5 -
        assetAmountIn txIssue2.getMergedAssetIDValueFromOutputs 5) 0 := by
  have happ := C5_remove_amended poolRemove2 txIssue2 [] rfl (by decide) (by decide)
  exact ⟨rfl, by decide, by decide, happ.1, happ.2.2.1, happ.2.2.2.1 rfl 5⟩

/-- C6: after `CleanSubmittedTransactions` for a committed block, every
non-bookkeeping block transaction is absent from the pending set, every
output it references is absent from the claimed-input index, its lock
identifier (when it is a `LockAsset` transaction) is absent from the
duplicate-lock guard, and every asset's issuance summary has decreased
by the total amount the block's `IssueAsset` transactions issued for
that asset, floored at zero. -/
theorem C6_block_commit_cleanup (pool : TXNPool) (txs : List Transaction)
    (txn : Transaction) (reference : List UTXOTxInput)
    (hmem : txn ∈ txs) (hbk : txn.txType ≠ TxType.BookKeeping)
    (href : txn.getReference = some reference)
    (hpos : ∀ p ∈ pool.issueSummary, 0 ≤ p.2)
    (hd : ∀ t ∈ txs, ∀ q ∈ t.getMergedAssetIDValueFromOutputs, 0 ≤ q.2) :
    mlookup txn.hash (CleanSubmittedTransactions pool txs).txnList = none ∧
    (∀ r ∈ reference, getInputUTXOList (CleanSubmittedTransactions pool txs) r = none) ∧
    (txn.txType = TxType.LockAsset →
      mlookup txn.lockPayloadToString
        (CleanSubmittedTransactions pool txs).lockAssetList = none) ∧
    (∀ a : Nat, getAssetIssueAmount (CleanSubmittedTransactions pool txs) a =
      max (getAssetIssueAmount pool a - specIssuedTotal txs a) 0) := by
  obtain ⟨t1, t2, t3⟩ := cleanTransactionList_frame txs pool
  obtain ⟨v1, v2, v3⟩ := cleanUTXOList_frame txs (cleanTransactionList pool txs)
  obtain ⟨l1, l2, l3⟩ := cleanLockedAssetList_frame txs
    (cleanUTXOList (cleanTransactionList pool txs) txs)
  obtain ⟨i1, i2, i3⟩ := cleanIssueSummary_frame txs
    (cleanLockedAssetList (cleanUTXOList (cleanTransactionList pool txs) txs) txs)
  have hsumeq : (cleanLockedAssetList
      (cleanUTXOList (cleanTransactionList pool txs) txs) txs).issueSummary =
      pool.issueSummary := l2.trans (v2.trans t1)
  refine ⟨?_, ?_, ?_, ?_⟩
  · show mlookup txn.hash (cleanIssueSummary _ txs).txnList = none
    rw [i1, l1, v1]
    exact cleanTransactionList_mem txs pool txn hmem hbk
  · intro r hr
    show mlookup r (cleanIssueSummary _ txs).inputUTXOList = none
    rw [i2, l3]
    exact cleanUTXOList_mem txs _ txn reference hmem href r hr
  · intro hlock
    show mlookup txn.lockPayloadToString (cleanIssueSummary _ txs).lockAssetList = none
    rw [i3]
    exact cleanLockedAssetList_mem txs _ txn hmem hlock
  · intro a
    have h0 : 0 ≤ getAssetIssueAmount (cleanLockedAssetList
        (cleanUTXOList (cleanTransactionList pool txs) txs) txs) a := by
      rw [getAssetIssueAmount_congr hsumeq a]
      exact getAssetIssueAmount_nonneg hpos a
    show getAssetIssueAmount (cleanIssueSummary _ txs) a = _
    rw [cleanIssueSummary_getAsset txs _ a hd h0, getAssetIssueAmount_congr hsumeq a]

theorem C6_block_commit_cleanup_witness :
    txIssue6 ∈ [txIssue6] ∧
    txIssue6.getReference = some [input100] ∧
    mlookup txIssue6.hash (CleanSubmittedTransactions poolBlock6 [txIssue6]).txnList =
      none ∧
    getInputUTXOList (CleanSubmittedTransactions poolBlock6 [txIssue6]) input100 = none ∧
    getAssetIssueAmount (CleanSubmittedTransactions poolBlock6 [txIssue6]) 5 =
      max (getAssetIssueAmount poolBlock6 5 - specIssuedTotal [txIssue6] 5) 0 := by
  have happ := C6_block_commit_cleanup poolBlock6 [txIssue6] txIssue6 [input100]
    (by decide) (by decide) rfl (by decide) (by decide)
  exact ⟨by decide, rfl, happ.1, happ.2.1 input100 (by decide), happ.2.2.2 5⟩

/-- C7 is refuted by the code: admitting `txTransfer9` (one input)
succeeds, but admitting the very same transaction a second time with
pool checks enabled does not report success — the transaction's own
claimed input is found in the claimed-input index and the second call
returns `DoubleSpend`. -/
theorem C7_idempotent_counterexample :
    (AppendTxnPool ext0 store0 emptyPool txTransfer9 true).2 = ErrCode.ErrNoError ∧
    (AppendTxnPool ext0 store0 (AppendTxnPool ext0 store0 emptyPool txTransfer9 true).1
      txTransfer9 true).2 = ErrCode.ErrDoubleSpend := by
  decide

/-- The pool state right after a successful admission of `txTransfer9`. -/
def poolAfter9 : TXNPool := ⟨[(9, txTransfer9)], [], [(input50, txTransfer9)], []⟩

/-- C7 (amended): the pending-set insertion itself is idempotent — when
an entry with the transaction's hash already exists and the external
checks pass, admission with pool checks DISABLED is a no-op that still
reports success, leaving the pool (and hence the count) unchanged.
With pool checks ENABLED, however, a second admission of a transaction
one of whose referenced outputs is already claimed (in particular by its
own first admission) is rejected with `DoubleSpend`, again leaving the
pool unchanged. -/
theorem C7_idempotent_amended (ext : Externals) (store : TxStore) (pool : TXNPool)
    (txn : Transaction) (t0 : Transaction)
    (h1 : ext.verifyTransaction txn = ErrCode.ErrNoError)
    (h2 : ext.verifyTransactionWithLedger txn = ErrCode.ErrNoError)
    (hmem : mlookup txn.hash pool.txnList = some t0) :
    AppendTxnPool ext store pool txn false = (pool, ErrCode.ErrNoError) ∧
    (∀ (reference : List UTXOTxInput) (r : UTXOTxInput),
      txn.getReference = some reference → r ∈ reference →
      (getInputUTXOList pool r).isSome = true →
      AppendTxnPool ext store pool txn true = (pool, ErrCode.ErrDoubleSpend)) := by
  have hn1 : ¬ ext.verifyTransaction txn ≠ ErrCode.ErrNoError := fun hc => hc h1
  have hn2 : ¬ ext.verifyTransactionWithLedger txn ≠ ErrCode.ErrNoError := fun hc => hc h2
  constructor
  · unfold AppendTxnPool
    rw [if_neg hn1, if_neg hn2, if_neg (by decide : ¬ (false : Bool) = true),
      addtxnList_of_some hmem]
  · intro reference r href hr hsome
    have hver := @verifyTransactionWithTxnPool_double_spend store pool txn
      (apendToUTXOPool_of_claimed href hr hsome)
    unfold AppendTxnPool
    rw [if_neg hn1, if_neg hn2, if_pos (rfl : (true : Bool) = true)]
    simp only [hver]
    rw [if_pos (by decide : ErrCode.ErrDoubleSpend ≠ ErrCode.ErrNoError)]

theorem C7_idempotent_amended_witness :
    ext0.verifyTransaction txTransfer9 = ErrCode.ErrNoError ∧
    mlookup txTransfer9.hash poolAfter9.txnList = some txTransfer9 ∧
    AppendTxnPool ext0 store0 poolAfter9 txTransfer9 false =
      (poolAfter9, ErrCode.ErrNoError) ∧
    AppendTxnPool ext0 store0 poolAfter9 txTransfer9 true =
      (poolAfter9, ErrCode.ErrDoubleSpend) :=
  ⟨rfl, by decide,
   (C7_idempotent_amended ext0 store0 poolAfter9 txTransfer9 txTransfer9 rfl rfl
     (by decide)).1,
   (C7_idempotent_amended ext0 store0 poolAfter9 txTransfer9 txTransfer9 rfl rfl
     (by decide)).2 [input50] input50 rfl (by decide) (by decide)⟩
